import Mathlib

/-!
Verification of the GOAP planner / executor core (src/packages/core/src/agents/base-agent.ts,
types in src/unnamed/part_002) and the LLM provider gateway (src/unnamed/part_001)
of the ai-ebook-creator repository.

Modelling conventions:
* A JS `WorldState` object (string keys, scalar values) is an association list
  `List (String × SVal)`.  The source mutates objects by spread-merge
  `{...state, ...effects}`; property update keeps the position of an existing key and
  appends new keys, which `setKey` reproduces, so list representation and JS object
  agree key-for-key.
* JS numbers are modelled as rationals (all values occurring in the claims are small
  integers, on which IEEE-754 arithmetic is exact).
* `getStateKey` in the source is `JSON.stringify` of the entries sorted by key
  (`localeCompare`).  On objects with distinct string keys and scalar values that
  serialization is injective, and two states get equal keys iff their sorted entry
  lists are equal; we therefore model the key as the entry list sorted by Lean's
  `String` order (any fixed total order on keys yields the same equality relation).
* `Array.prototype.sort` is required to be stable (ES2019); a stable sort under a
  total preorder is unique, so Mathlib's `List.insertionSort` with the same
  comparator produces exactly the array the source produces.
* The planner loop is written with explicit fuel.  The fuel passed by `planActions`
  is one more than `openMeasure`, a weight that strictly decreases at every
  iteration (theorem `planLoopFuel_congr` below shows any fuel above the measure
  gives the same result), so the fuel clause never fires and the definition
  computes by kernel reduction.
* `Goal.conditions` is `Partial<WorldState>` in types/index (scalar values only), so
  the `typeof expectedValue === 'function'` branches of `goalSatisfied` and
  `calculateHeuristic` are dead code under the declared types and are not modelled.
-/

unseal Rat.add

/-- Decidable equality of `Except` results, for evaluating concrete runs. -/
instance {ε α : Type} [DecidableEq ε] [DecidableEq α] : DecidableEq (Except ε α)
  | .ok a, .ok b => if h : a = b then .isTrue (by rw [h]) else .isFalse (by simp [h])
  | .error a, .error b => if h : a = b then .isTrue (by rw [h]) else .isFalse (by simp [h])
  | .ok _, .error _ => .isFalse (by simp)
  | .error _, .ok _ => .isFalse (by simp)

namespace Goap

/-- Scalar values of a `WorldState` (types/index: `boolean | number | string | null`). -/
inductive SVal where
  | b : Bool → SVal
  | num : ℚ → SVal
  | str : String → SVal
  | null : SVal
deriving DecidableEq, Repr

/-- A world state: string keys to scalar values (association list, see header). -/
abbrev WorldState := List (String × SVal)

/-- JS property read `state[key]` (`none` = `undefined`). -/
def lookupKey (state : WorldState) (k : String) : Option SVal :=
  state.lookup k

/-- JS property write: overwrite the value at an existing key in place, else append.
This is what each key of a spread `{...state, ...effects}` does. -/
def setKey : WorldState → String → SVal → WorldState
  | [], k, v => [(k, v)]
  | (k0, v0) :: rest, k, v =>
      if k0 = k then (k0, v) :: rest else (k0, v0) :: setKey rest k v

/-- base-agent.ts `applyEffects`: `{ ...state, ...effects }` (last write wins). -/
def applyEffects (state : WorldState) (effects : List (String × SVal)) : WorldState :=
  effects.foldl (fun s kv => setKey s kv.1 kv.2) state

/-- types/index `Goal` (the `timeout` field is unused by the planner). -/
structure Goal where
  id : String
  name : String
  priority : ℚ
  conditions : List (String × SVal)
  timeout : Option Nat
deriving DecidableEq, Repr

/-- types/index `Action` data fields; the `execute` behavior is supplied to the
executor separately (as a function from actions to behaviors) so that the planner
data stays decidably comparable. -/
structure Action where
  id : String
  name : String
  cost : ℚ
  preconditions : List (String × SVal)
  effects : List (String × SVal)
  timeout : Option Nat
deriving DecidableEq, Repr

/-- base-agent.ts `goalSatisfied`: every condition holds by strict equality. -/
def goalSatisfied (goal : Goal) (state : WorldState) : Bool :=
  goal.conditions.all fun kv => lookupKey state kv.1 == some kv.2

/-- base-agent.ts `preconditionsMet`: strict equality on every precondition key. -/
def preconditionsMet (action : Action) (state : WorldState) : Bool :=
  action.preconditions.all fun kv => lookupKey state kv.1 == some kv.2

/-- base-agent.ts `calculateHeuristic`: the number of unmet goal conditions. -/
def calculateHeuristic (state : WorldState) (goal : Goal) : ℚ :=
  ((goal.conditions.countP fun kv => !(lookupKey state kv.1 == some kv.2) : Nat) : ℚ)

/-- Lexicographic comparison of character lists (a computable total order used to
sort state entries by key; the source uses `localeCompare`, and any fixed total
order yields the same canonical-form equality, see the header). -/
def charListLe : List Char → List Char → Bool
  | [], _ => true
  | _ :: _, [] => false
  | c :: cs, d :: ds =>
      if c.val < d.val then true
      else if d.val < c.val then false
      else charListLe cs ds

/-- Key order for sorting state entries. -/
def entryLe (p q : String × SVal) : Prop := charListLe p.1.data q.1.data = true

instance : DecidableRel entryLe := fun p q =>
  inferInstanceAs (Decidable (charListLe p.1.data q.1.data = true))

/-- base-agent.ts `getStateKey`: canonical form of a state, entries sorted by key
(see the header for why this models the JSON string key). -/
def getStateKey (state : WorldState) : WorldState :=
  List.insertionSort entryLe state

/-- An entry of the A* open list in `planActions`. -/
structure Node where
  state : WorldState
  actions : List Action
  cost : ℚ
  heuristic : ℚ
deriving DecidableEq, Repr

/-- The f-cost `cost + heuristic` the open list is sorted by. -/
def fVal (n : Node) : ℚ := n.cost + n.heuristic

/-- Comparator of the open-list sort (`(a.cost+a.heuristic)-(b.cost+b.heuristic)`). -/
def nodeLe (a b : Node) : Prop := fVal a ≤ fVal b

instance : DecidableRel nodeLe := fun a b => inferInstanceAs (Decidable (fVal a ≤ fVal b))

/-- base-agent.ts: `protected readonly maxPlanLength = 20`. -/
def maxPlanLength : Nat := 20

/-- base-agent.ts: `protected readonly maxPlanningTime = 5000`.  Only referenced by
the dead `setTimeout` in `planActions` (see claim C6). -/
def maxPlanningTime : Nat := 5000

/-- JS `x || d` on an optional number (`0` is falsy). -/
def jsOrNat (x : Option Nat) (d : Nat) : Nat :=
  match x with
  | some t => if t = 0 then d else t
  | none => d

/-- types/index `ActionPlan`.  The clock-derived metadata fields `id` and
`createdAt` are not modelled. -/
structure ActionPlan where
  goal : Goal
  actions : List Action
  estimatedCost : ℚ
  estimatedDuration : Nat
deriving DecidableEq, Repr

/-- The plan built at the success exit of `planActions`
(`estimatedDuration` sums `action.timeout || 1000`). -/
def mkPlan (goal : Goal) (n : Node) : ActionPlan :=
  ⟨goal, n.actions, n.cost, (n.actions.map fun a => jsOrNat a.timeout 1000).sum⟩

/-- The `GOAPPlanningError`s thrown by `planActions`: `No valid plan found` and
`Planning timeout after ...ms` (the latter sits in a `setTimeout` callback). -/
inductive PlanErr where
  | noPlanFound (goal : Goal) (ws : WorldState)
  | planningTimeout (goal : Goal) (ws : WorldState)
deriving DecidableEq, Repr

/-- Whether a planning error is the timeout error. -/
def PlanErr.isTimeout : PlanErr → Bool
  | .planningTimeout _ _ => true
  | .noPlanFound _ _ => false

/-- One expansion step of `planActions`: push a successor node for every registered
action whose preconditions hold in the current state. -/
def successors (acts : List Action) (goal : Goal) (current : Node) : List Node :=
  acts.filterMap fun a =>
    if preconditionsMet a current.state then
      some { state := applyEffects current.state a.effects
             actions := current.actions ++ [a]
             cost := current.cost + a.cost
             heuristic := calculateHeuristic (applyEffects current.state a.effects) goal }
    else none

/-- Weight of an open-list node used as loop fuel: shallow nodes weigh more, and one
expansion replaces a node by at most `b` nodes of the next depth. -/
def nodeWeight (b : Nat) (n : Node) : Nat :=
  (b + 1) ^ (maxPlanLength + 1 - n.actions.length)

/-- Total weight of the open list; strictly decreases at every loop iteration. -/
def openMeasure (b : Nat) (l : List Node) : Nat :=
  (l.map (nodeWeight b)).sum

/-- The `while (openList.length > 0)` loop of `planActions`: stable-sort by f-cost,
pop, goal test, depth cutoff, closed-set skip, expansion.  `fuel` bounds the number
of iterations; `planActions` passes more fuel than the loop can consume. -/
def planLoopFuel (acts : List Action) (goal : Goal) (ws0 : WorldState) :
    Nat → List Node → List WorldState → Except PlanErr ActionPlan
  | 0, _, _ => .error (.noPlanFound goal ws0)
  | fuel + 1, openList, closedSet =>
    match List.insertionSort nodeLe openList with
    | [] => .error (.noPlanFound goal ws0)
    | current :: rest =>
      if goalSatisfied goal current.state then .ok (mkPlan goal current)
      else if maxPlanLength ≤ current.actions.length then
        planLoopFuel acts goal ws0 fuel rest closedSet
      else if getStateKey current.state ∈ closedSet then
        planLoopFuel acts goal ws0 fuel rest closedSet
      else
        planLoopFuel acts goal ws0 fuel (rest ++ successors acts goal current)
          (getStateKey current.state :: closedSet)

/-- The seed node of the search: initial state, no actions, cost 0. -/
def seedNode (ws : WorldState) (goal : Goal) : Node :=
  ⟨ws, [], 0, calculateHeuristic ws goal⟩

/-- base-agent.ts `planActions` (the A* search). -/
def planActions (acts : List Action) (ws : WorldState) (goal : Goal) :
    Except PlanErr ActionPlan :=
  planLoopFuel acts goal ws (openMeasure acts.length [seedNode ws goal] + 1)
    [seedNode ws goal] []

/-! ### Semantics of action sequences -/

/-- The state obtained by merging the effects of a sequence of actions in order. -/
def execSeq (ws : WorldState) (seq : List Action) : WorldState :=
  seq.foldl (fun s a => applyEffects s a.effects) ws

/-- A sequence of actions is valid from `ws` when each action's preconditions hold
(by strict equality) in the state reached before it runs. -/
def validSeq : WorldState → List Action → Bool
  | _, [] => true
  | ws, a :: rest => preconditionsMet a ws && validSeq (applyEffects ws a.effects) rest

/-- Total declared cost of a sequence of actions. -/
def costOf (seq : List Action) : ℚ := (seq.map Action.cost).sum

theorem execSeq_cons (ws : WorldState) (a : Action) (l : List Action) :
    execSeq ws (a :: l) = execSeq (applyEffects ws a.effects) l := rfl

theorem execSeq_append_singleton (ws : WorldState) (l : List Action) (a : Action) :
    execSeq ws (l ++ [a]) = applyEffects (execSeq ws l) a.effects := by
  simp [execSeq, List.foldl_append]

theorem validSeq_append_singleton (ws : WorldState) (l : List Action) (a : Action) :
    validSeq ws (l ++ [a]) = (validSeq ws l && preconditionsMet a (execSeq ws l)) := by
  induction l generalizing ws with
  | nil => simp [validSeq, execSeq]
  | cons x xs ih =>
      simp only [List.cons_append, validSeq, List.append_eq, ih, execSeq_cons,
        Bool.and_assoc]

/-- Invariant of every node on the open list: its action list is a valid sequence of
registered actions from the initial state, its state and cost fields match that
sequence, and its depth never exceeds the cutoff. -/
def GoodNode (acts : List Action) (init : WorldState) (n : Node) : Prop :=
  validSeq init n.actions = true ∧ n.state = execSeq init n.actions ∧
    n.actions.length ≤ maxPlanLength ∧ ∀ a ∈ n.actions, a ∈ acts

theorem successors_good {acts : List Action} {goal : Goal} {init : WorldState}
    {current n : Node} (hmem : n ∈ successors acts goal current)
    (hcur : GoodNode acts init current)
    (hlen : current.actions.length < maxPlanLength) : GoodNode acts init n := by
  obtain ⟨a, ha, hn⟩ := List.mem_filterMap.mp hmem
  by_cases hpre : preconditionsMet a current.state
  · rw [if_pos hpre] at hn
    obtain ⟨hv, hs, hl, hr⟩ := hcur
    cases hn
    refine ⟨?_, ?_, ?_, ?_⟩
    · rw [validSeq_append_singleton, hv, Bool.true_and, ← hs]
      exact hpre
    · simp only [execSeq_append_singleton, hs]
    · simpa using hlen
    · intro x hx
      rcases List.mem_append.mp hx with hx | hx
      · exact hr x hx
      · simp only [List.mem_singleton] at hx
        exact hx ▸ ha
  · rw [if_neg hpre] at hn
    cases hn

/-- Soundness of the search loop: any returned plan consists of registered actions,
forms a valid sequence from the root state, reaches a goal-satisfying state, and
respects the length cutoff. -/
theorem planLoopFuel_sound {acts : List Action} {goal : Goal} {ws0 init : WorldState} :
    ∀ (fuel : Nat) (openList : List Node) (closedSet : List WorldState)
      (plan : ActionPlan),
      (∀ n ∈ openList, GoodNode acts init n) →
      planLoopFuel acts goal ws0 fuel openList closedSet = .ok plan →
      validSeq init plan.actions = true ∧
        goalSatisfied goal (execSeq init plan.actions) = true ∧
        plan.actions.length ≤ maxPlanLength ∧
        (∀ a ∈ plan.actions, a ∈ acts) ∧ plan.goal = goal := by
  intro fuel
  induction fuel with
  | zero =>
      intro openList closedSet plan hgood h
      simp [planLoopFuel] at h
  | succ fuel ih =>
      intro openList closedSet plan hgood h
      rw [planLoopFuel] at h
      cases hs : List.insertionSort nodeLe openList with
      | nil => rw [hs] at h; exact absurd h (by simp)
      | cons current rest =>
          rw [hs] at h
          have hperm : (current :: rest).Perm openList := by
            rw [← hs]; exact List.perm_insertionSort nodeLe openList
          have hcur : GoodNode acts init current :=
            hgood current (hperm.mem_iff.mp (List.mem_cons_self current rest))
          have hrest : ∀ n ∈ rest, GoodNode acts init n := fun n hn =>
            hgood n (hperm.mem_iff.mp (List.mem_cons_of_mem current hn))
          simp only at h
          by_cases hg : goalSatisfied goal current.state
          · rw [if_pos hg] at h
            cases h
            obtain ⟨hv, hst, hl, hr⟩ := hcur
            refine ⟨hv, ?_, hl, hr, rfl⟩
            show goalSatisfied goal (execSeq init current.actions) = true
            rw [← hst]
            exact hg
          · rw [if_neg hg] at h
            by_cases hlen : maxPlanLength ≤ current.actions.length
            · rw [if_pos hlen] at h
              exact ih rest closedSet plan hrest h
            · rw [if_neg hlen] at h
              by_cases hcl : getStateKey current.state ∈ closedSet
              · rw [if_pos hcl] at h
                exact ih rest closedSet plan hrest h
              · rw [if_neg hcl] at h
                refine ih _ _ plan ?_ h
                intro n hn
                rcases List.mem_append.mp hn with hn | hn
                · exact hrest n hn
                · exact successors_good hn hcur (Nat.lt_of_not_le hlen)

/-! ### The fuel of `planActions` never runs out

`openMeasure` strictly decreases at every iteration of the loop, so the result of
`planLoopFuel` is the same for every fuel above the measure of the starting open
list; `planActions` passes `openMeasure + 1`, hence its fuel clause is dead and the
definition agrees with the unbounded `while` loop of the source. -/

theorem nodeWeight_pos (b : Nat) (n : Node) : 0 < nodeWeight b n :=
  pow_pos (Nat.succ_pos b) _

theorem openMeasure_cons (b : Nat) (n : Node) (l : List Node) :
    openMeasure b (n :: l) = nodeWeight b n + openMeasure b l := by
  simp [openMeasure]

theorem openMeasure_append (b : Nat) (l₁ l₂ : List Node) :
    openMeasure b (l₁ ++ l₂) = openMeasure b l₁ + openMeasure b l₂ := by
  simp [openMeasure]

theorem openMeasure_sort (b : Nat) (l : List Node) :
    openMeasure b (List.insertionSort nodeLe l) = openMeasure b l :=
  ((List.perm_insertionSort nodeLe l).map (nodeWeight b)).sum_eq

theorem successors_length {acts : List Action} {goal : Goal} {current n : Node}
    (hmem : n ∈ successors acts goal current) :
    n.actions.length = current.actions.length + 1 := by
  obtain ⟨a, _, hn⟩ := List.mem_filterMap.mp hmem
  by_cases hpre : preconditionsMet a current.state
  · rw [if_pos hpre] at hn
    cases hn
    simp
  · rw [if_neg hpre] at hn
    cases hn

theorem sum_map_const {α : Type} (l : List α) (f : α → Nat) (c : Nat)
    (h : ∀ x ∈ l, f x = c) : (l.map f).sum = l.length * c := by
  induction l with
  | nil => simp
  | cons x xs ih =>
      simp only [List.map_cons, List.sum_cons, List.length_cons, Nat.succ_mul,
        h x (List.mem_cons_self x xs), ih fun y hy => h y (List.mem_cons_of_mem x hy)]
      omega

theorem successors_measure_lt (acts : List Action) (goal : Goal) (current : Node)
    (hlen : current.actions.length < maxPlanLength) :
    openMeasure acts.length (successors acts goal current) <
      nodeWeight acts.length current := by
  set b := acts.length with hb
  set k := maxPlanLength - current.actions.length - 1 with hk
  have hw : ∀ n ∈ successors acts goal current, nodeWeight b n = (b + 1) ^ (k + 1) := by
    intro n hn
    have := successors_length hn
    simp only [nodeWeight, this]
    congr 1
    omega
  have hsum : openMeasure b (successors acts goal current) =
      (successors acts goal current).length * (b + 1) ^ (k + 1) :=
    sum_map_const _ _ _ hw
  have hle : (successors acts goal current).length ≤ b := by
    simpa [hb, successors] using List.length_filterMap_le _ acts
  have hcur : nodeWeight b current = (b + 1) ^ (k + 2) := by
    simp only [nodeWeight]
    congr 1
    omega
  have hpow : 0 < (b + 1) ^ (k + 1) := pow_pos (Nat.succ_pos b) _
  rw [hsum, hcur]
  calc (successors acts goal current).length * (b + 1) ^ (k + 1)
      ≤ b * (b + 1) ^ (k + 1) := Nat.mul_le_mul_right _ hle
    _ < (b + 1) * (b + 1) ^ (k + 1) :=
        mul_lt_mul_of_pos_right (Nat.lt_succ_self b) hpow
    _ = (b + 1) ^ (k + 2) := by ring

/-- Any two sufficient fuels give the same search result: the fuel clause of
`planLoopFuel` is unreachable from `planActions`. -/
theorem planLoopFuel_congr {acts : List Action} {goal : Goal} {ws0 : WorldState} :
    ∀ (f₁ f₂ : Nat) (openList : List Node) (closedSet : List WorldState),
      openMeasure acts.length openList < f₁ →
      openMeasure acts.length openList < f₂ →
      planLoopFuel acts goal ws0 f₁ openList closedSet =
        planLoopFuel acts goal ws0 f₂ openList closedSet := by
  intro f₁
  induction f₁ with
  | zero => intro f₂ openList closedSet h₁ h₂; omega
  | succ f₁ ih =>
      intro f₂ openList closedSet h₁ h₂
      cases f₂ with
      | zero => omega
      | succ f₂ =>
          rw [planLoopFuel, planLoopFuel]
          cases hs : List.insertionSort nodeLe openList with
          | nil => rfl
          | cons current rest =>
              have hms : openMeasure acts.length openList =
                  nodeWeight acts.length current + openMeasure acts.length rest := by
                rw [← openMeasure_sort acts.length openList, hs, openMeasure_cons]
              simp only
              by_cases hg : goalSatisfied goal current.state
              · simp only [if_pos hg]
              · simp only [if_neg hg]
                have hwpos := nodeWeight_pos acts.length current
                by_cases hlen : maxPlanLength ≤ current.actions.length
                · simp only [if_pos hlen]
                  exact ih f₂ rest closedSet (by omega) (by omega)
                · simp only [if_neg hlen]
                  by_cases hcl : getStateKey current.state ∈ closedSet
                  · simp only [if_pos hcl]
                    exact ih f₂ rest closedSet (by omega) (by omega)
                  · simp only [if_neg hcl]
                    have hexp := successors_measure_lt acts goal current
                      (Nat.lt_of_not_le hlen)
                    have : openMeasure acts.length
                        (rest ++ successors acts goal current) <
                        openMeasure acts.length openList := by
                      rw [openMeasure_append]
                      omega
                    exact ih f₂ _ _ (by omega) (by omega)

/-- The search loop produces no error other than `noPlanFound goal ws0`; in
particular it can never produce the `planningTimeout` error. -/
theorem planLoopFuel_error_shape {acts : List Action} {goal : Goal}
    {ws0 : WorldState} :
    ∀ (fuel : Nat) (openList : List Node) (closedSet : List WorldState)
      (e : PlanErr),
      planLoopFuel acts goal ws0 fuel openList closedSet = .error e →
      e = .noPlanFound goal ws0 := by
  intro fuel
  induction fuel with
  | zero =>
      intro openList closedSet e h
      simp [planLoopFuel] at h
      exact h.symm
  | succ fuel ih =>
      intro openList closedSet e h
      rw [planLoopFuel] at h
      cases hs : List.insertionSort nodeLe openList with
      | nil =>
          rw [hs] at h
          simp at h
          exact h.symm
      | cons current rest =>
          rw [hs] at h
          simp only at h
          by_cases hg : goalSatisfied goal current.state
          · rw [if_pos hg] at h; exact absurd h (by simp)
          · rw [if_neg hg] at h
            by_cases hlen : maxPlanLength ≤ current.actions.length
            · rw [if_pos hlen] at h; exact ih _ _ _ h
            · rw [if_neg hlen] at h
              by_cases hcl : getStateKey current.state ∈ closedSet
              · rw [if_pos hcl] at h; exact ih _ _ _ h
              · rw [if_neg hcl] at h; exact ih _ _ _ h

/-! ### Concrete planning instances -/

/-- Action `MakeOutline` of the concrete plan scenario (§8 of the spec). -/
def MakeOutline : Action :=
  ⟨"mo", "MakeOutline", 1, [("draftComplete", .b false)], [("outlineReady", .b true)],
    none⟩

/-- Action `WriteDraft` of the concrete plan scenario. -/
def WriteDraft : Action :=
  ⟨"wd", "WriteDraft", 2, [("outlineReady", .b true)], [("draftComplete", .b true)],
    none⟩

/-- Initial state of the concrete plan scenario. -/
def c3Init : WorldState := [("draftComplete", .b false), ("outlineReady", .b false)]

/-- Goal of the concrete plan scenario. -/
def c3Goal : Goal := ⟨"g", "draft", 1, [("draftComplete", .b true)], none⟩

/-- The plan the planner produces on the concrete scenario. -/
def c3Plan : ActionPlan := ⟨c3Goal, [MakeOutline, WriteDraft], 3, 2000⟩

/-- Keys `c1` .. `c19` of the chain instance used against claim C1. -/
def cKey (i : Nat) : String := "c" ++ toString i

/-- The key each chain action `d i` requires to be set. -/
def prevKey : Nat → String
  | 1 => "s"
  | i => cKey (i - 1)

/-- Chain action `d i`: needs the previous chain key, sets key `c i`. -/
def dAct (i : Nat) : Action :=
  ⟨"d" ++ toString i, "d" ++ toString i, 1,
    [(prevKey i, .b true), (cKey i, .b false)], [(cKey i, .b true)], none⟩

/-- Cheap two-step detour `b` then `c` reaching the same state as `a`. -/
def bAct : Action :=
  ⟨"b", "b", 1, [("st", .b true)], [("st", .b false), ("w", .b true)], none⟩

/-- Second step of the cheap detour; resets `w`, so its end state equals `a`'s. -/
def cAct : Action :=
  ⟨"c", "c", 1, [("w", .b true)], [("w", .b false), ("s", .b true)], none⟩

/-- Expensive one-step action: the only way to start a goal route of length 20. -/
def aAct : Action :=
  ⟨"a", "a", 20, [("st", .b true)], [("st", .b false), ("s", .b true)], none⟩

/-- Registered actions of the C1 instance. -/
def cexActions : List Action :=
  [bAct, cAct] ++ (List.range 19).map (fun i => dAct (i + 1)) ++ [aAct]

/-- Initial state of the C1 instance. -/
def cexInit : WorldState :=
  [("st", .b true), ("w", .b false), ("s", .b false)] ++
    (List.range 19).map (fun i => (cKey (i + 1), SVal.b false))

/-- Goal of the C1 instance: set the last chain key. -/
def cexGoal : Goal := ⟨"g", "g", 1, [(cKey 19, .b true)], none⟩

/-- A valid goal-reaching sequence of exactly `maxPlanLength` registered actions:
`a` followed by the whole chain. -/
def cexGood : List Action := aAct :: (List.range 19).map (fun i => dAct (i + 1))

/-! ### Claim theorems for the planner -/

/-- Claim C1, counterexample: on the instance above a sequence of 20 registered
actions (`a, d1, ..., d19`) validly reaches the goal, yet `planActions` fails with
`noPlanFound` instead of returning a plan.  The cheap detour `b, c` reaches the
state `a` reaches with a smaller f-cost, closes that state, and the closed-set
skip then cuts the only route that fits within `maxPlanLength`. -/
theorem claim_c1_counterexample :
    validSeq cexInit cexGood = true ∧
      cexGood.all (fun a => cexActions.contains a) = true ∧
      cexGood.length = maxPlanLength ∧
      goalSatisfied cexGoal (execSeq cexInit cexGood) = true ∧
      planActions cexActions cexInit cexGoal =
        .error (.noPlanFound cexGoal cexInit) := by
  refine ⟨by decide, by decide, by decide, by decide, by decide⟩

/-- Claim C1, amended: whenever `planActions` returns a plan, that plan is a valid
sequence of at most `maxPlanLength` registered actions whose effects, merged
sequentially into the initial state, yield a state satisfying every goal condition
(the planner is sound; reachability of the goal does not guarantee a plan is
found, see the counterexample). -/
theorem claim_c1_plan_soundness (acts : List Action) (ws : WorldState) (goal : Goal)
    (plan : ActionPlan) (h : planActions acts ws goal = .ok plan) :
    validSeq ws plan.actions = true ∧
      goalSatisfied goal (execSeq ws plan.actions) = true ∧
      plan.actions.length ≤ maxPlanLength ∧ ∀ a ∈ plan.actions, a ∈ acts := by
  simp only [planActions] at h
  have hseed : ∀ n ∈ [seedNode ws goal], GoodNode acts ws n := by
    intro n hn
    simp only [List.mem_singleton] at hn
    subst hn
    refine ⟨rfl, rfl, by simp [seedNode, maxPlanLength], by intro a ha; simp [seedNode] at ha⟩
  obtain ⟨h₁, h₂, h₃, h₄, _⟩ := planLoopFuel_sound _ _ _ plan hseed h
  exact ⟨h₁, h₂, h₃, h₄⟩

/-- Witness for claim C1's amended theorem at the concrete scenario instance. -/
theorem claim_c1_plan_soundness_witness :
    validSeq c3Init c3Plan.actions = true ∧
      goalSatisfied c3Goal (execSeq c3Init c3Plan.actions) = true ∧
      c3Plan.actions.length ≤ maxPlanLength ∧ ∀ a ∈ c3Plan.actions, a ∈ [MakeOutline, WriteDraft] :=
  claim_c1_plan_soundness [MakeOutline, WriteDraft] c3Init c3Goal c3Plan (by decide)

/-- Claim C2: when no valid sequence of at most `maxPlanLength` registered actions
reaches a goal-satisfying state, `planActions` fails with the
`No valid plan found` error (`noPlanFound`); it never returns a partial or
incorrect plan. -/
theorem claim_c2_unreachable_no_plan_found (acts : List Action) (ws : WorldState)
    (goal : Goal)
    (hunreach : ∀ seq : List Action, (∀ a ∈ seq, a ∈ acts) →
      validSeq ws seq = true → seq.length ≤ maxPlanLength →
      goalSatisfied goal (execSeq ws seq) = false) :
    planActions acts ws goal = .error (.noPlanFound goal ws) := by
  cases h : planActions acts ws goal with
  | ok plan =>
      exfalso
      have hseed : ∀ n ∈ [seedNode ws goal], GoodNode acts ws n := by
        intro n hn
        simp only [List.mem_singleton] at hn
        subst hn
        refine ⟨rfl, rfl, by simp [seedNode, maxPlanLength],
          by intro a ha; simp [seedNode] at ha⟩
      simp only [planActions] at h
      obtain ⟨h₁, h₂, h₃, h₄, _⟩ := planLoopFuel_sound _ _ _ plan hseed h
      rw [hunreach plan.actions h₄ h₁ h₃] at h₂
      cases h₂
  | error e =>
      simp only [planActions] at h
      rw [planLoopFuel_error_shape _ _ _ _ h]

/-- Witness for claim C2: with no registered actions and an unsatisfied goal, the
unreachability hypothesis holds and planning fails with `noPlanFound`. -/
theorem claim_c2_witness :
    planActions [] [("x", .b false)] ⟨"g", "g", 1, [("x", .b true)], none⟩ =
      .error (.noPlanFound ⟨"g", "g", 1, [("x", .b true)], none⟩ [("x", .b false)]) := by
  refine claim_c2_unreachable_no_plan_found _ _ _ ?_
  intro seq hreg hval hlen
  cases seq with
  | nil => decide
  | cons a rest => exact absurd (hreg a (List.mem_cons_self a rest)) (by simp)

/-- Claim C3: on the concrete scenario (goal `draftComplete`, actions `MakeOutline`
cost 1 and `WriteDraft` cost 2) the planner returns the plan
`[MakeOutline, WriteDraft]` with `estimatedCost = 3`. -/
theorem claim_c3_concrete_plan_scenario :
    planActions [MakeOutline, WriteDraft] c3Init c3Goal = .ok c3Plan ∧
      c3Plan.actions = [MakeOutline, WriteDraft] ∧ c3Plan.estimatedCost = 3 := by
  refine ⟨by decide, rfl, rfl⟩

/-- Claim C6: `planActions` can never fail with the planning-timeout error: the
search loop polls nothing, and the deferred timer of the source cannot fire during
the synchronous loop (every error the search produces is `noPlanFound`). -/
theorem claim_c6_never_planning_timeout (acts : List Action) (ws : WorldState)
    (goal : Goal) (e : PlanErr) (h : planActions acts ws goal = .error e) :
    e.isTimeout = false := by
  simp only [planActions] at h
  rw [planLoopFuel_error_shape _ _ _ _ h]
  rfl

/-- Witness for claim C6 at a concrete failing search. -/
theorem claim_c6_never_planning_timeout_witness :
    (PlanErr.noPlanFound ⟨"g", "g", 1, [("y", .b true)], none⟩ []).isTimeout = false :=
  claim_c6_never_planning_timeout [] [] ⟨"g", "g", 1, [("y", .b true)], none⟩ _
    (by decide)

/-! ### The executor (`execute` / `executeAction` of base-agent.ts)

An action's `execute(context)` promise is modelled by a behavior: the time at
which it settles and whether it resolves (with an optional payload, `none` being
`undefined`) or rejects (with an error message).  `executeAction` races it
against the action timeout. -/

/-- An error is modelled by its message. -/
abbrev ErrMsg := String

/-- types/index `ActionResult` as produced by `executeAction` (`newState` is
always absent there but is read back by `execute`, so it is kept). -/
structure ActionResult where
  success : Bool
  newState : Option (List (String × SVal))
  data : Option SVal
  error : Option ErrMsg
  duration : Nat
deriving DecidableEq, Repr

/-- types/index `ActionContext`; the `metadata` record of base-agent.ts carries
`stepIndex` and `previousResults`. -/
structure ActionContext where
  worldState : WorldState
  goal : Goal
  stepIndex : Nat
  previousResults : List ActionResult
deriving DecidableEq, Repr

/-- Outcome of one invocation of an action's asynchronous behavior: when it
settles and whether it resolves or rejects. -/
structure BehaviorRun where
  settleAt : Nat
  outcome : Except ErrMsg (Option SVal)
deriving DecidableEq, Repr

/-- The behavior table standing for the `execute` methods of the registered
actions. -/
abbrev Behaviors := Action → ActionContext → BehaviorRun

/-- base-agent.ts `executeAction`: race the behavior against
`action.timeout || 30000`; resolution in time gives a success result carrying the
payload, rejection or timeout gives a failure result carrying the error — nothing
is thrown past this boundary. -/
def executeAction (beh : Behaviors) (action : Action) (ctx : ActionContext) :
    ActionResult :=
  let timeoutMs := jsOrNat action.timeout 30000
  let run := beh action ctx
  if run.settleAt < timeoutMs then
    match run.outcome with
    | .ok v => ⟨true, none, v, none, run.settleAt⟩
    | .error e => ⟨false, none, none, some e, run.settleAt⟩
  else
    ⟨false, none, none,
      some ("Action timeout after " ++ toString timeoutMs ++ "ms"), timeoutMs⟩

/-- The errors `execute` throws (`GOAPPlanningError`s for lookup/planning/empty
plan, a plain `Error` when an action fails). -/
inductive ExecErr where
  | goalNotFound (goalName : String)
  | planning (e : PlanErr)
  | emptyPlan (goalName : String)
  | actionFailed (actionName : String) (cause : Option ErrMsg)
deriving DecidableEq, Repr

/-- Lifecycle events emitted by `execute` (payloads trimmed to the fields the
claims mention; source names use colons, e.g. `task:failed`). -/
inductive Event where
  | taskStarted (goalName : String)
  | actionStarted (name : String) (step total : Nat)
  | stateUpdated (previous current : WorldState)
  | actionCompleted (name : String) (step : Nat)
  | taskCompleted (result : Option SVal)
  | taskFailed (err : ExecErr)
deriving DecidableEq, Repr

/-- Whether an event is an `action:started` emission. -/
def Event.isActionStarted : Event → Bool
  | .actionStarted _ _ _ => true
  | _ => false

/-- Result of running (part of) a task: emitted events, collected action results,
final live world state, and the returned value or thrown error. -/
structure LoopOut where
  events : List Event
  results : List ActionResult
  finalState : WorldState
  outcome : Except ExecErr (Option SVal)
deriving DecidableEq, Repr

/-- JS truthiness of an optional scalar (`undefined`, `null`, `false`, `0` and the
empty string are falsy). -/
def truthyOpt : Option SVal → Bool
  | none => false
  | some (.b b) => b
  | some (.num q) => decide (q ≠ 0)
  | some (.str s) => decide (s ≠ "")
  | some .null => false

/-- The sequential action loop of `execute`: emit `action:started`, run the
action, on failure throw (aborting the loop), on success merge
`newState || effects` into the live state (emitting `state:updated`), update the
running result via `data || result`, emit `action:completed`, continue. -/
def runActionsAux (beh : Behaviors) (goal : Goal) (total : Nat) :
    List Action → Nat → WorldState → Option SVal → List ActionResult → LoopOut
  | [], _, ws, result, _ => ⟨[], [], ws, .ok result⟩
  | a :: rest, idx, ws, result, prevRes =>
    let r := executeAction beh a ⟨ws, goal, idx, prevRes⟩
    if r.success then
      let ws2 := applyEffects ws (r.newState.getD a.effects)
      let result2 := if truthyOpt r.data then r.data else result
      let out := runActionsAux beh goal total rest (idx + 1) ws2 result2
        (prevRes ++ [r])
      ⟨.actionStarted a.name (idx + 1) total :: .stateUpdated ws ws2 ::
          .actionCompleted a.name (idx + 1) :: out.events,
        r :: out.results, out.finalState, out.outcome⟩
    else
      ⟨[.actionStarted a.name (idx + 1) total], [r], ws,
        .error (.actionFailed a.name r.error)⟩

/-- Run a plan's actions from the loop entry of `execute` onward: on normal exit
emit `task:completed` with the final result, on a thrown error emit `task:failed`
with it. -/
def runPlan (beh : Behaviors) (goal : Goal) (acts : List Action) (ws : WorldState)
    (ctx0 : Option SVal) : LoopOut :=
  let out := runActionsAux beh goal acts.length acts 0 ws ctx0 []
  match out.outcome with
  | .ok v => ⟨out.events ++ [.taskCompleted v], out.results, out.finalState, .ok v⟩
  | .error e => ⟨out.events ++ [.taskFailed e], out.results, out.finalState, .error e⟩

/-- base-agent.ts `execute`: emit `task:started`, look the goal up, plan, reject an
empty plan, then run the plan's actions against the live world state. -/
def execute (goals : List Goal) (acts : List Action) (beh : Behaviors)
    (ws : WorldState) (taskGoal : String) (taskContext : Option SVal) : LoopOut :=
  match goals.find? (fun g => g.name == taskGoal) with
  | none =>
      ⟨[.taskStarted taskGoal, .taskFailed (.goalNotFound taskGoal)], [], ws,
        .error (.goalNotFound taskGoal)⟩
  | some goal =>
      match planActions acts ws goal with
      | .error e =>
          ⟨[.taskStarted taskGoal, .taskFailed (.planning e)], [], ws,
            .error (.planning e)⟩
      | .ok plan =>
          if plan.actions.length = 0 then
            ⟨[.taskStarted taskGoal, .taskFailed (.emptyPlan taskGoal)], [], ws,
              .error (.emptyPlan taskGoal)⟩
          else
            let out := runPlan beh goal plan.actions ws taskContext
            ⟨.taskStarted taskGoal :: out.events, out.results, out.finalState,
              out.outcome⟩

/-- The running `result = actionResult.data || result` accumulator of `execute`,
folded over the collected payloads. -/
def jsOrFold (init : Option SVal) (l : List (Option SVal)) : Option SVal :=
  l.foldl (fun acc d => if truthyOpt d then d else acc) init

theorem executeAction_newState (beh : Behaviors) (a : Action) (ctx : ActionContext) :
    (executeAction beh a ctx).newState = none := by
  simp only [executeAction]
  by_cases h : (beh a ctx).settleAt < jsOrNat a.timeout 30000
  · rw [if_pos h]
    cases (beh a ctx).outcome <;> rfl
  · rw [if_neg h]

/-- Characterization of the action loop when the result at index `k` failed: the
loop stops there (exactly `k+1` results and `k+1` `action:started` emissions), all
earlier results succeeded, the thrown error names the failing action and carries
its recorded error, and the live state holds exactly the effects of the `k`
successful prefix actions. -/
theorem runActionsAux_failure (beh : Behaviors) (goal : Goal) (total : Nat) :
    ∀ (acts : List Action) (k idx : Nat) (ws : WorldState) (res0 : Option SVal)
      (prev : List ActionResult) (r : ActionResult),
      (runActionsAux beh goal total acts idx ws res0 prev).results.get? k = some r →
      r.success = false →
      (runActionsAux beh goal total acts idx ws res0 prev).results.length = k + 1 ∧
        (∀ i, i < k → ∀ ri,
          (runActionsAux beh goal total acts idx ws res0 prev).results.get? i =
            some ri → ri.success = true) ∧
        (∃ a, acts.get? k = some a ∧
          (runActionsAux beh goal total acts idx ws res0 prev).outcome =
            .error (.actionFailed a.name r.error)) ∧
        (runActionsAux beh goal total acts idx ws res0 prev).finalState =
          execSeq ws (acts.take k) ∧
        ((runActionsAux beh goal total acts idx ws res0 prev).events.countP
          Event.isActionStarted) = k + 1 := by
  intro acts
  induction acts with
  | nil =>
      intro k idx ws res0 prev r hk hr
      simp [runActionsAux] at hk
  | cons a rest ih =>
      intro k idx ws res0 prev r hk hr
      simp only [runActionsAux] at hk ⊢
      by_cases hs : (executeAction beh a ⟨ws, goal, idx, prev⟩).success
      · rw [if_pos hs] at hk ⊢
        cases k with
        | zero =>
            simp only [List.get?] at hk
            cases hk
            rw [hs] at hr
            cases hr
        | succ k =>
            simp only [List.get?] at hk
            obtain ⟨hlen, hsucc, ⟨a2, ha2, hout⟩, hfs, hev⟩ :=
              ih k (idx + 1) _ _ _ r hk hr
            refine ⟨by simp [hlen], ?_, ⟨a2, by simpa using ha2, by simpa using hout⟩,
              ?_, ?_⟩
            · intro i hi ri hri
              cases i with
              | zero =>
                  simp only [List.get?] at hri
                  cases hri
                  exact hs
              | succ i =>
                  simp only [List.get?] at hri
                  exact hsucc i (by omega) ri hri
            · rw [hfs, executeAction_newState, Option.getD_none, List.take_succ_cons,
                execSeq_cons]
            · simp only [List.countP_cons, Event.isActionStarted] at hev ⊢
              simp only [hev]
              rfl
      · rw [if_neg hs] at hk ⊢
        cases k with
        | zero =>
            simp only [List.get?] at hk
            cases hk
            refine ⟨rfl, by omega, ⟨a, rfl, rfl⟩, by simp [execSeq], ?_⟩
            simp [List.countP_cons, Event.isActionStarted]
        | succ k =>
            simp only [List.get?] at hk
            cases hk

/-- Claim C4: if the action at index `k` of a plan fails, `execute`'s loop aborts
there — exactly `k+1` actions were started, all results before `k` succeeded, the
task fails with the failing action's error, `task:failed` is the last emitted
event, and the live world state holds exactly the effects merged by the successful
actions before `k` (no rollback). -/
theorem claim_c4_failure_aborts (beh : Behaviors) (goal : Goal)
    (acts : List Action) (ws : WorldState) (ctx0 : Option SVal) (k : Nat)
    (r : ActionResult)
    (hk : (runPlan beh goal acts ws ctx0).results.get? k = some r)
    (hfail : r.success = false) :
    (runPlan beh goal acts ws ctx0).results.length = k + 1 ∧
      (∀ i, i < k → ∀ ri,
        (runPlan beh goal acts ws ctx0).results.get? i = some ri →
          ri.success = true) ∧
      (∃ a, acts.get? k = some a ∧
        (runPlan beh goal acts ws ctx0).outcome =
          .error (.actionFailed a.name r.error) ∧
        (runPlan beh goal acts ws ctx0).events.getLast? =
          some (.taskFailed (.actionFailed a.name r.error))) ∧
      (runPlan beh goal acts ws ctx0).finalState = execSeq ws (acts.take k) ∧
      ((runPlan beh goal acts ws ctx0).events.countP Event.isActionStarted) =
        k + 1 := by
  have hres : (runPlan beh goal acts ws ctx0).results =
      (runActionsAux beh goal acts.length acts 0 ws ctx0 []).results := by
    simp only [runPlan]
    cases (runActionsAux beh goal acts.length acts 0 ws ctx0 []).outcome <;> rfl
  rw [hres] at hk
  obtain ⟨hlen, hsucc, ⟨a2, ha2, houtc⟩, hfs, hev⟩ :=
    runActionsAux_failure beh goal acts.length acts k 0 ws ctx0 [] r hk hfail
  have hplan : runPlan beh goal acts ws ctx0 =
      ⟨(runActionsAux beh goal acts.length acts 0 ws ctx0 []).events ++
          [.taskFailed (.actionFailed a2.name r.error)],
        (runActionsAux beh goal acts.length acts 0 ws ctx0 []).results,
        (runActionsAux beh goal acts.length acts 0 ws ctx0 []).finalState,
        .error (.actionFailed a2.name r.error)⟩ := by
    simp only [runPlan, houtc]
  rw [hplan]
  refine ⟨hlen, hsucc, ⟨a2, ha2, rfl, by rw [List.getLast?_concat]⟩, hfs, ?_⟩
  rw [List.countP_append]
  simpa [Event.isActionStarted] using hev

/-- Witness for claim C4: a two-action plan whose second action rejects; the run
stops after it with the first action's effects applied. -/
theorem claim_c4_failure_aborts_witness :
    (runPlan
        (fun a _ => if a.name = "A" then ⟨0, .ok (some (.str "ok"))⟩
          else ⟨0, .error "boom"⟩)
        ⟨"g", "g", 1, [], none⟩
        [⟨"A", "A", 1, [], [("fa", .b true)], none⟩,
          ⟨"B", "B", 1, [], [("fb", .b true)], none⟩]
        [] none).results.length = 2 ∧
      (runPlan
        (fun a _ => if a.name = "A" then ⟨0, .ok (some (.str "ok"))⟩
          else ⟨0, .error "boom"⟩)
        ⟨"g", "g", 1, [], none⟩
        [⟨"A", "A", 1, [], [("fa", .b true)], none⟩,
          ⟨"B", "B", 1, [], [("fb", .b true)], none⟩]
        [] none).finalState = [("fa", .b true)] := by
  obtain ⟨h₁, _, _, h₄, _⟩ := claim_c4_failure_aborts
    (fun a _ => if a.name = "A" then ⟨0, .ok (some (.str "ok"))⟩
      else ⟨0, .error "boom"⟩)
    ⟨"g", "g", 1, [], none⟩
    [⟨"A", "A", 1, [], [("fa", .b true)], none⟩,
      ⟨"B", "B", 1, [], [("fb", .b true)], none⟩]
    [] none 1 ⟨false, none, none, some "boom", 0⟩ (by decide) (by decide)
  exact ⟨h₁, by rw [h₄]; decide⟩

/-- Claim C7: `executeAction` is total (it is a function into `ActionResult`) and
never throws: with `t = action.timeout || 30000` (so 30000 when no timeout is
declared), a behavior resolving before `t` yields a success result carrying the
payload in `data`; a behavior rejecting before `t` yields a failure result with
the rejection error recorded in `error`; and a behavior not settled at `t` yields
a failure result recording the timeout error — in every case a result is
returned, never an exception. -/
theorem claim_c7_executeAction_total (beh : Behaviors) (action : Action)
    (ctx : ActionContext) :
    (action.timeout = none → jsOrNat action.timeout 30000 = 30000) ∧
      (∀ v, (beh action ctx).settleAt < jsOrNat action.timeout 30000 →
        (beh action ctx).outcome = .ok v →
        executeAction beh action ctx =
          ⟨true, none, v, none, (beh action ctx).settleAt⟩) ∧
      (∀ e, (beh action ctx).settleAt < jsOrNat action.timeout 30000 →
        (beh action ctx).outcome = .error e →
        executeAction beh action ctx =
          ⟨false, none, none, some e, (beh action ctx).settleAt⟩) ∧
      (jsOrNat action.timeout 30000 ≤ (beh action ctx).settleAt →
        executeAction beh action ctx =
          ⟨false, none, none,
            some ("Action timeout after " ++
              toString (jsOrNat action.timeout 30000) ++ "ms"),
            jsOrNat action.timeout 30000⟩) := by
  refine ⟨fun h => by simp [jsOrNat, h], ?_, ?_, ?_⟩
  · intro v hlt hok
    simp only [executeAction, if_pos hlt, hok]
  · intro e hlt herr
    simp only [executeAction, if_pos hlt, herr]
  · intro hge
    simp only [executeAction, if_neg (Nat.not_lt.mpr hge)]

/-- Witness for claim C7: a behavior resolving at time 5 against the default
30-second ceiling. -/
theorem claim_c7_executeAction_total_witness :
    executeAction (fun _ _ => ⟨5, .ok (some (.b true))⟩) ⟨"t", "t", 1, [], [], none⟩
        ⟨[], ⟨"g", "g", 1, [], none⟩, 0, []⟩ =
      ⟨true, none, some (.b true), none, 5⟩ :=
  (claim_c7_executeAction_total (fun _ _ => ⟨5, .ok (some (.b true))⟩)
      ⟨"t", "t", 1, [], [], none⟩ ⟨[], ⟨"g", "g", 1, [], none⟩, 0, []⟩).2.1
    (some (.b true)) (by decide) (by decide)

/-- The final `result` of a fully successful loop is the `data || result` fold of
the collected payloads over the initial context. -/
theorem runActionsAux_ok (beh : Behaviors) (goal : Goal) (total : Nat) :
    ∀ (acts : List Action) (idx : Nat) (ws : WorldState) (res0 : Option SVal)
      (prev : List ActionResult) (v : Option SVal),
      (runActionsAux beh goal total acts idx ws res0 prev).outcome = .ok v →
      v = jsOrFold res0
        ((runActionsAux beh goal total acts idx ws res0 prev).results.map
          ActionResult.data) := by
  intro acts
  induction acts with
  | nil =>
      intro idx ws res0 prev v h
      simp only [runActionsAux] at h ⊢
      cases h
      rfl
  | cons a rest ih =>
      intro idx ws res0 prev v h
      simp only [runActionsAux] at h ⊢
      by_cases hs : (executeAction beh a ⟨ws, goal, idx, prev⟩).success
      · rw [if_pos hs] at h ⊢
        simp only at h ⊢
        have := ih (idx + 1) _ _ _ v h
        simp only [List.map_cons]
        rw [this]
        rfl
      · rw [if_neg hs] at h
        cases h

/-- Claim C9, amended: when every action of the plan succeeds, `execute` emits
`task:completed` carrying (and returns) the `data || result` fold of the action
payloads over the initial context — i.e. the latest truthy payload, or the
initial context when none is truthy — not necessarily the last action's payload. -/
theorem claim_c9_result_fold (beh : Behaviors) (goal : Goal) (acts : List Action)
    (ws : WorldState) (ctx0 : Option SVal) (v : Option SVal)
    (h : (runPlan beh goal acts ws ctx0).outcome = .ok v) :
    (runPlan beh goal acts ws ctx0).events.getLast? =
        some (.taskCompleted v) ∧
      v = jsOrFold ctx0
        ((runPlan beh goal acts ws ctx0).results.map ActionResult.data) := by
  have hres : (runPlan beh goal acts ws ctx0).results =
      (runActionsAux beh goal acts.length acts 0 ws ctx0 []).results := by
    simp only [runPlan]
    cases (runActionsAux beh goal acts.length acts 0 ws ctx0 []).outcome <;> rfl
  cases hout : (runActionsAux beh goal acts.length acts 0 ws ctx0 []).outcome with
  | ok w =>
      have hplan : runPlan beh goal acts ws ctx0 =
          ⟨(runActionsAux beh goal acts.length acts 0 ws ctx0 []).events ++
              [.taskCompleted w],
            (runActionsAux beh goal acts.length acts 0 ws ctx0 []).results,
            (runActionsAux beh goal acts.length acts 0 ws ctx0 []).finalState,
            .ok w⟩ := by
        simp only [runPlan, hout]
      rw [hplan] at h ⊢
      simp only at h
      cases h
      exact ⟨by rw [List.getLast?_concat],
        runActionsAux_ok beh goal acts.length acts 0 ws ctx0 [] v hout⟩
  | error e =>
      have hplan : runPlan beh goal acts ws ctx0 =
          ⟨(runActionsAux beh goal acts.length acts 0 ws ctx0 []).events ++
              [.taskFailed e],
            (runActionsAux beh goal acts.length acts 0 ws ctx0 []).results,
            (runActionsAux beh goal acts.length acts 0 ws ctx0 []).finalState,
            .error e⟩ := by
        simp only [runPlan, hout]
      rw [hplan] at h
      cases h

/-- Witness for claim C9's amended theorem: a fully successful two-action run. -/
theorem claim_c9_result_fold_witness :
    (runPlan (fun _ _ => ⟨0, .ok (some (.str "p"))⟩) ⟨"g", "g", 1, [], none⟩
        [⟨"A", "A", 1, [], [], none⟩] [] none).events.getLast? =
      some (.taskCompleted (some (.str "p"))) :=
  (claim_c9_result_fold (fun _ _ => ⟨0, .ok (some (.str "p"))⟩)
    ⟨"g", "g", 1, [], none⟩ [⟨"A", "A", 1, [], [], none⟩] [] none
    (some (.str "p")) (by decide)).1

/-- Claim C9, counterexample: a plan of two successful actions where the second
resolves with no payload (`undefined` data).  Because the source keeps
`result = actionResult.data || result`, the task completes with the first
action's payload, not the last action's `data`. -/
theorem claim_c9_counterexample :
    (runPlan
        (fun a _ => if a.name = "A" then ⟨0, .ok (some (.str "x"))⟩ else ⟨0, .ok none⟩)
        ⟨"g", "g", 1, [], none⟩
        [⟨"A", "A", 1, [], [], none⟩, ⟨"B", "B", 1, [], [], none⟩]
        [] none).outcome = .ok (some (.str "x")) ∧
      ((runPlan
        (fun a _ => if a.name = "A" then ⟨0, .ok (some (.str "x"))⟩ else ⟨0, .ok none⟩)
        ⟨"g", "g", 1, [], none⟩
        [⟨"A", "A", 1, [], [], none⟩, ⟨"B", "B", 1, [], [], none⟩]
        [] none).results.map ActionResult.data).getLast? = some none ∧
      (runPlan
        (fun a _ => if a.name = "A" then ⟨0, .ok (some (.str "x"))⟩ else ⟨0, .ok none⟩)
        ⟨"g", "g", 1, [], none⟩
        [⟨"A", "A", 1, [], [], none⟩, ⟨"B", "B", 1, [], [], none⟩]
        [] none).events.getLast? = some (.taskCompleted (some (.str "x"))) ∧
      some (SVal.str "x") ≠ (none : Option SVal) := by
  refine ⟨by decide, by decide, by decide, by decide⟩

/-- When the goal is already satisfied by the current world state, the seed node of
the search satisfies it, so the planner immediately returns the empty plan. -/
theorem planActions_satisfied (acts : List Action) (ws : WorldState) (goal : Goal)
    (h : goalSatisfied goal ws = true) :
    planActions acts ws goal = .ok ⟨goal, [], 0, 0⟩ := by
  rw [planActions, planLoopFuel]
  have hsort : List.insertionSort nodeLe [seedNode ws goal] = [seedNode ws goal] := by
    simp [List.insertionSort]
  rw [hsort]
  simp only [seedNode] at h ⊢
  rw [if_pos h]
  rfl

/-- Claim C10: a task whose registered goal is already satisfied does not complete
with an empty plan: the planner returns a zero-action plan and `execute` rejects
it with the `No valid action plan found` error, emitting `task:failed` and leaving
the world state unchanged. -/
theorem claim_c10_satisfied_goal_rejected (goals : List Goal) (acts : List Action)
    (beh : Behaviors) (ws : WorldState) (taskGoal : String) (ctx0 : Option SVal)
    (goal : Goal) (hfind : goals.find? (fun g => g.name == taskGoal) = some goal)
    (hsat : goalSatisfied goal ws = true) :
    planActions acts ws goal = .ok ⟨goal, [], 0, 0⟩ ∧
      execute goals acts beh ws taskGoal ctx0 =
        ⟨[.taskStarted taskGoal, .taskFailed (.emptyPlan taskGoal)], [], ws,
          .error (.emptyPlan taskGoal)⟩ := by
  have hplan := planActions_satisfied acts ws goal hsat
  refine ⟨hplan, ?_⟩
  simp only [execute, hfind, hplan]
  rfl

/-! ### Heuristic admissibility (claim C8) -/

/-- The unmet-condition count underlying `calculateHeuristic`. -/
def unmetCount (state : WorldState) (goal : Goal) : Nat :=
  goal.conditions.countP fun kv => !(lookupKey state kv.1 == some kv.2)

theorem calculateHeuristic_eq_unmetCount (state : WorldState) (goal : Goal) :
    calculateHeuristic state goal = (unmetCount state goal : ℚ) := rfl

theorem lookup_setKey (s : WorldState) (k : String) (v : SVal) (k2 : String) :
    lookupKey (setKey s k v) k2 = if k2 = k then some v else lookupKey s k2 := by
  induction s with
  | nil =>
      by_cases h : k2 = k
      · subst h
        simp [setKey, lookupKey, List.lookup]
      · simp [setKey, lookupKey, List.lookup, beq_false_of_ne h, if_neg h]
  | cons kv t ih =>
      obtain ⟨k0, v0⟩ := kv
      by_cases h0 : k0 = k
      · subst h0
        by_cases h2 : k2 = k0
        · subst h2
          simp [setKey, lookupKey, List.lookup]
        · simp [setKey, lookupKey, List.lookup, beq_false_of_ne h2, if_neg h2]
      · by_cases h2 : k2 = k0
        · have hne : k2 ≠ k := fun hh => h0 (h2.symm.trans hh)
          subst h2
          simp [setKey, lookupKey, List.lookup, if_neg h0, if_neg hne]
        · simp only [setKey, lookupKey, List.lookup, if_neg h0, beq_false_of_ne h2]
          exact ih

/-- Changing the state only at key `k` changes the unmet count by at most the
number of condition entries for `k`. -/
theorem countP_unmet_le (conds : List (String × SVal)) (s s2 : WorldState)
    (k : String) (hagree : ∀ k2, k2 ≠ k → lookupKey s2 k2 = lookupKey s k2) :
    (conds.countP fun kv => !(lookupKey s kv.1 == some kv.2)) ≤
      (conds.countP fun kv => !(lookupKey s2 kv.1 == some kv.2)) +
        conds.countP (fun kv => kv.1 == k) := by
  induction conds with
  | nil => simp
  | cons kv tl ih =>
      simp only [List.countP_cons]
      by_cases hk : kv.1 = k
      · have h1 : (kv.1 == k) = true := beq_iff_eq.mpr hk
        simp only [h1, if_true]
        have h2 : (if (!(lookupKey s kv.1 == some kv.2)) = true then 1 else 0) ≤ 1 := by
          split <;> omega
        omega
      · have h1 : (kv.1 == k) = false := beq_false_of_ne hk
        have h2 : lookupKey s2 kv.1 = lookupKey s kv.1 := hagree kv.1 hk
        simp only [h1, h2]
        omega

/-- One action whose effects touch at most one key lowers the unmet count by at
most one (conditions keys are distinct, as they come from a JS object). -/
theorem unmetCount_step (goal : Goal) (s : WorldState) (e : List (String × SVal))
    (hnd : (goal.conditions.map Prod.fst).Nodup) (heff : e.length ≤ 1) :
    unmetCount s goal ≤ unmetCount (applyEffects s e) goal + 1 := by
  match e, heff with
  | [], _ =>
      have : applyEffects s [] = s := rfl
      rw [this]
      omega
  | [(k, v)], _ =>
      have happ : applyEffects s [(k, v)] = setKey s k v := rfl
      rw [happ]
      have hagree : ∀ k2, k2 ≠ k → lookupKey (setKey s k v) k2 = lookupKey s k2 := by
        intro k2 h2
        rw [lookup_setKey, if_neg h2]
      have hb := countP_unmet_le goal.conditions s (setKey s k v) k hagree
      have hcount : goal.conditions.countP (fun kv => kv.1 == k) ≤ 1 := by
        have hmap : goal.conditions.countP (fun kv => kv.1 == k) =
            (goal.conditions.map Prod.fst).countP (fun k2 => k2 == k) := by
          rw [List.countP_map]
          rfl
        rw [hmap]
        have := List.nodup_iff_count_le_one.mp hnd k
        simpa [List.count] using this
      unfold unmetCount
      omega

theorem goalSatisfied_unmetCount_zero (goal : Goal) (s : WorldState)
    (h : goalSatisfied goal s = true) : unmetCount s goal = 0 := by
  rw [unmetCount, List.countP_eq_zero]
  intro kv hkv
  have := (List.all_eq_true.mp h) kv hkv
  simp only [this, Bool.not_true, not_false_eq_true, Bool.not_eq_true]

theorem unmetCount_le_length (goal : Goal)
    (hnd : (goal.conditions.map Prod.fst).Nodup) :
    ∀ (seq : List Action) (s : WorldState),
      (∀ a ∈ seq, a.effects.length ≤ 1) →
      goalSatisfied goal (execSeq s seq) = true →
      unmetCount s goal ≤ seq.length := by
  intro seq
  induction seq with
  | nil =>
      intro s _ hgoal
      have := goalSatisfied_unmetCount_zero goal s hgoal
      omega
  | cons a tl ih =>
      intro s heff hgoal
      have hstep := unmetCount_step goal s a.effects hnd
        (heff a (List.mem_cons_self a tl))
      have htl := ih (applyEffects s a.effects)
        (fun x hx => heff x (List.mem_cons_of_mem a hx))
        (by rwa [← execSeq_cons])
      simp only [List.length_cons]
      omega

theorem length_le_costOf (seq : List Action) (hcost : ∀ a ∈ seq, 1 ≤ a.cost) :
    (seq.length : ℚ) ≤ costOf seq := by
  induction seq with
  | nil => simp [costOf]
  | cons a tl ih =>
      have ha := hcost a (List.mem_cons_self a tl)
      have htl := ih fun x hx => hcost x (List.mem_cons_of_mem a hx)
      simp only [costOf, List.map_cons, List.sum_cons, List.length_cons] at htl ⊢
      push_cast
      linarith

/-- Claim C8, amended: the unmet-condition heuristic never exceeds the cost of any
goal-reaching action sequence provided every action has cost at least 1 AND every
action writes at most one key (the counterexample shows a cost-1 action with two
effect keys already breaks admissibility); condition keys are pairwise distinct as
they come from a JS object. -/
theorem claim_c8_admissible_single_effect (goal : Goal) (s : WorldState)
    (seq : List Action) (hnd : (goal.conditions.map Prod.fst).Nodup)
    (hcost : ∀ a ∈ seq, 1 ≤ a.cost) (heff : ∀ a ∈ seq, a.effects.length ≤ 1)
    (_hval : validSeq s seq = true)
    (hreach : goalSatisfied goal (execSeq s seq) = true) :
    calculateHeuristic s goal ≤ costOf seq := by
  rw [calculateHeuristic_eq_unmetCount]
  have h1 := unmetCount_le_length goal hnd seq s heff hreach
  have h2 := length_le_costOf seq hcost
  have h3 : (unmetCount s goal : ℚ) ≤ (seq.length : ℚ) := by exact_mod_cast h1
  linarith

/-- Goal of the C8 counterexample: two conditions. -/
def c8Goal : Goal := ⟨"g", "g", 1, [("x", .b true), ("y", .b true)], none⟩

/-- State of the C8 counterexample: both conditions unmet. -/
def c8State : WorldState := [("x", .b false), ("y", .b false)]

/-- A cost-1 action fixing both conditions at once. -/
def fixAct : Action := ⟨"fix", "fix", 1, [], [("x", .b true), ("y", .b true)], none⟩

/-- Claim C8, counterexample: with every registered action of cost ≥ 1, the
heuristic still overestimates: it is 2 while the single cost-1 action `fix`
validly reaches the goal, so the least remaining cost is at most 1. -/
theorem claim_c8_counterexample :
    (1 : ℚ) ≤ fixAct.cost ∧
      validSeq c8State [fixAct] = true ∧
      goalSatisfied c8Goal (execSeq c8State [fixAct]) = true ∧
      costOf [fixAct] = 1 ∧
      calculateHeuristic c8State c8Goal = 2 ∧
      ¬calculateHeuristic c8State c8Goal ≤ costOf [fixAct] := by
  refine ⟨by decide, by decide, by decide, by decide, by decide, by decide⟩

/-- Witness for claim C8's amended theorem: one single-effect cost-1 action
reaching a one-condition goal. -/
theorem claim_c8_admissible_single_effect_witness :
    calculateHeuristic [("x", SVal.b false)] ⟨"g", "g", 1, [("x", .b true)], none⟩ ≤
      costOf [⟨"fx", "fx", 1, [], [("x", .b true)], none⟩] :=
  claim_c8_admissible_single_effect ⟨"g", "g", 1, [("x", .b true)], none⟩
    [("x", SVal.b false)] [⟨"fx", "fx", 1, [], [("x", .b true)], none⟩]
    (by decide) (by decide) (by decide) (by decide) (by decide)

/-- Witness for claim C10: a registered goal whose single condition already holds. -/
theorem claim_c10_satisfied_goal_rejected_witness :
    execute [⟨"g", "done", 1, [("x", .b true)], none⟩] [] (fun _ _ => ⟨0, .ok none⟩)
        [("x", .b true)] "done" none =
      ⟨[.taskStarted "done", .taskFailed (.emptyPlan "done")], [], [("x", .b true)],
        .error (.emptyPlan "done")⟩ :=
  (claim_c10_satisfied_goal_rejected [⟨"g", "done", 1, [("x", .b true)], none⟩] []
    (fun _ _ => ⟨0, .ok none⟩) [("x", .b true)] "done" none
    ⟨"g", "done", 1, [("x", .b true)], none⟩ (by decide) (by decide)).2

end Goap

/-!
### The LLM provider gateway (`LLMService.generateText`, src/unnamed/part_001)

The remote call of one attempt against one provider is modelled by an
attempt-indexed outcome function; the retry policy of `async-retry`
(`retries: 3`, i.e. one initial try plus three retries, surfacing the last
attempt's error) is folded over it.  Backoff delays and the optional
`AbortSignal` deadline only influence which outcome an attempt produces, so they
are absorbed into that outcome function.
-/

namespace Llm

/-- An error is modelled by its message. -/
abbrev ErrMsg := String

/-- types/index `AIProvider`. -/
inductive AIProvider where
  | anthropic
  | openai
  | google
deriving DecidableEq, Repr

/-- The provider identifier as interpolated into error messages. -/
def providerName : AIProvider → String
  | .anthropic => "anthropic"
  | .openai => "openai"
  | .google => "google"

/-- src/unnamed/part_001 `getDefaultModel`. -/
def getDefaultModel : AIProvider → String
  | .anthropic => "claude-3-5-sonnet-20241022"
  | .openai => "gpt-4-turbo"
  | .google => "gemini-1.5-pro"

/-- types/index `AIResponse`, trimmed to the fields the claims mention (`usage`,
`duration` and `finishReason` are reporting metadata). -/
structure AIResponse where
  content : String
  provider : AIProvider
  model : String
deriving DecidableEq, Repr

/-- The caller options of `generateText` (the `timeout` option only shapes the
per-attempt outcome, see the section header). -/
structure GenOptions where
  model : Option String
  provider : Option AIProvider
  temperature : Option ℚ
  maxTokens : Option Nat
  useCache : Option Bool
deriving DecidableEq, Repr

/-- src/unnamed/part_001 `getCacheKey`: the key is the JSON of this tuple (the
prompt truncated to its first 100 characters); the tuple itself is the faithful
model since the serialization is injective on it. -/
structure CacheKey where
  kind : String
  promptTrunc : String
  model : Option String
  provider : Option AIProvider
  temperature : Option ℚ
  maxTokens : Option Nat
deriving DecidableEq, Repr

/-- Cache key of a request (`prompt.slice(0, 100)` modelled on the char list). -/
def getCacheKey (kind : String) (prompt : String) (opts : GenOptions) : CacheKey :=
  ⟨kind, String.mk (prompt.data.take 100), opts.model, opts.provider,
    opts.temperature, opts.maxTokens⟩

/-- Modelled from the spec: the repository's `CacheManager` (utils/cache.ts) is
not among the provided sources; §4.4 of the spec specifies `get`/`set` plus
TTL-lazy expiry and insertion-order eviction.  `generateText` only uses
`has`/`get`/`set`, and claim C5 does not depend on expiry or eviction, so the
cache is modelled as a key-value store (an entry list, newest first). -/
structure CacheManager where
  entries : List (CacheKey × AIResponse)
deriving DecidableEq, Repr

/-- Cache lookup (`has` in the source is `get`-is-present). -/
def CacheManager.get (cache : CacheManager) (k : CacheKey) : Option AIResponse :=
  (cache.entries.lookup k)

/-- Cache store. -/
def CacheManager.set (cache : CacheManager) (k : CacheKey) (r : AIResponse) :
    CacheManager :=
  ⟨(k, r) :: cache.entries⟩

/-- Outcomes of the remote text-generation call: provider and attempt number to
resolved text or error. -/
abbrev CallOutcomes := AIProvider → Nat → Except ErrMsg String

/-- `async-retry` with `retries: 3`: attempts 0..3, first success wins, otherwise
the last attempt's error is thrown. -/
def retryRun (f : Nat → Except ErrMsg String) : Except ErrMsg String :=
  match f 0 with
  | .ok t => .ok t
  | .error _ =>
    match f 1 with
    | .ok t => .ok t
    | .error _ =>
      match f 2 with
      | .ok t => .ok t
      | .error _ => f 3

/-- types/index `AIServiceError` (message, provider, code, cause); the provider
field is `providersToTry[0]`, which is `undefined` (`none`) when the candidate
list is empty. -/
structure AIServiceError where
  message : String
  provider : Option AIProvider
  code : Option String
  cause : Option ErrMsg
deriving DecidableEq, Repr

/-- One iteration of the provider loop body of `generateText`: resolve the model
(a missing provider instance throws inside the try, hence behaves as a failed
attempt) and run the call under the retry policy, building the `AIResponse` on
success. -/
def tryProvider (avail : AIProvider → Bool) (call : CallOutcomes)
    (opts : GenOptions) (p : AIProvider) : Except ErrMsg AIResponse :=
  if avail p then
    match retryRun (call p) with
    | .ok t => .ok ⟨t, p, opts.model.getD (getDefaultModel p)⟩
    | .error e => .error e
  else
    .error ("Model not available for provider " ++ providerName p)

/-- The message of the terminal error
(`All providers failed. Last error: ${lastError?.message}`). -/
def allFailMsg (lastErr : Option ErrMsg) : String :=
  "All providers failed. Last error: " ++
    (match lastErr with
     | some e => e
     | none => "undefined")

/-- Store into the cache when a key was computed (caching enabled). -/
def setIfKey : Option CacheKey → AIResponse → CacheManager → CacheManager
  | some k, r, cache => cache.set k r
  | none, _, cache => cache

/-- The `for (const provider of providersToTry)` loop of `generateText`, also
returning the list of providers actually attempted (the failure log) and the
updated cache.  `firstProvider` is `providersToTry[0]`, carried for the terminal
error. -/
def generateTextLoop (avail : AIProvider → Bool) (call : CallOutcomes)
    (opts : GenOptions) (firstProvider : Option AIProvider)
    (ckey : Option CacheKey) :
    List AIProvider → Option ErrMsg → List AIProvider → CacheManager →
      Except AIServiceError AIResponse × List AIProvider × CacheManager
  | [], lastErr, attempted, cache =>
      (.error ⟨allFailMsg lastErr, firstProvider, some "GENERATION_FAILED", lastErr⟩,
        attempted, cache)
  | p :: rest, _lastErr, attempted, cache =>
      match tryProvider avail call opts p with
      | .ok r => (.ok r, attempted ++ [p], setIfKey ckey r cache)
      | .error e =>
          generateTextLoop avail call opts firstProvider ckey rest (some e)
            (attempted ++ [p]) cache

/-- src/unnamed/part_001 `LLMService.generateText`: consult the cache, then try
the caller's provider or the configured fallback order with per-provider retries;
cache and return the first success, fail with the terminal `AIServiceError` when
every candidate fails.  Besides the result, the attempted-provider list and the
final cache are returned. -/
def generateText (avail : AIProvider → Bool) (call : CallOutcomes)
    (fallbackOrder : List AIProvider) (prompt : String) (opts : GenOptions)
    (cache : CacheManager) :
    Except AIServiceError AIResponse × List AIProvider × CacheManager :=
  let providersToTry := match opts.provider with
    | some p => [p]
    | none => fallbackOrder
  if opts.useCache = some false then
    generateTextLoop avail call opts providersToTry.head? none providersToTry none
      [] cache
  else
    match cache.get (getCacheKey "text" prompt opts) with
    | some r => (.ok r, [], cache)
    | none =>
        generateTextLoop avail call opts providersToTry.head?
          (some (getCacheKey "text" prompt opts)) providersToTry none [] cache

/-- Running the loop when a prefix fails and provider `p` then succeeds: the
prefix and `p` are attempted in order, `p`'s response is cached and returned, and
the suffix is never tried. -/
theorem generateTextLoop_success (avail : AIProvider → Bool) (call : CallOutcomes)
    (opts : GenOptions) (first : Option AIProvider) (ckey : Option CacheKey)
    (p : AIProvider) (r : AIResponse) (hp : tryProvider avail call opts p = .ok r) :
    ∀ (pre : List AIProvider) (post : List AIProvider) (lastErr : Option ErrMsg)
      (attempted : List AIProvider) (cache : CacheManager),
      (∀ q ∈ pre, ∃ e, tryProvider avail call opts q = .error e) →
      generateTextLoop avail call opts first ckey (pre ++ p :: post) lastErr
          attempted cache =
        (.ok r, attempted ++ pre ++ [p], setIfKey ckey r cache) := by
  intro pre
  induction pre with
  | nil =>
      intro post lastErr attempted cache _
      simp only [List.nil_append, generateTextLoop, hp]
      simp
  | cons q qs ih =>
      intro post lastErr attempted cache hpre
      obtain ⟨e, he⟩ := hpre q (List.mem_cons_self q qs)
      simp only [List.cons_append, generateTextLoop, he, List.append_eq]
      rw [ih post (some e) (attempted ++ [q]) cache
        (fun x hx => hpre x (List.mem_cons_of_mem q hx))]
      simp

/-- Running the loop when every candidate fails: every candidate is attempted in
order and the terminal error carries the last candidate's error, the carried
first provider and the `GENERATION_FAILED` code; the cache is untouched. -/
theorem generateTextLoop_allfail (avail : AIProvider → Bool) (call : CallOutcomes)
    (opts : GenOptions) (first : Option AIProvider) (ckey : Option CacheKey)
    (errs : AIProvider → ErrMsg) :
    ∀ (cands : List AIProvider) (lastErr : Option ErrMsg)
      (attempted : List AIProvider) (cache : CacheManager),
      (∀ q ∈ cands, tryProvider avail call opts q = .error (errs q)) →
      generateTextLoop avail call opts first ckey cands lastErr attempted cache =
        (.error ⟨allFailMsg (cands.foldl (fun _ q => some (errs q)) lastErr), first,
            some "GENERATION_FAILED",
            cands.foldl (fun _ q => some (errs q)) lastErr⟩,
          attempted ++ cands, cache) := by
  intro cands
  induction cands with
  | nil =>
      intro lastErr attempted cache _
      simp [generateTextLoop]
  | cons q qs ih =>
      intro lastErr attempted cache hall
      have hq := hall q (List.mem_cons_self q qs)
      simp only [generateTextLoop, hq, List.foldl_cons]
      rw [ih (some (errs q)) (attempted ++ [q]) cache
        (fun x hx => hall x (List.mem_cons_of_mem q hx))]
      simp

/-- The folded last-error of a nonempty candidate list is the last candidate's
error. -/
theorem foldl_lastErr (errs : AIProvider → ErrMsg) :
    ∀ (l : List AIProvider) (hne : l ≠ []) (init : Option ErrMsg),
      l.foldl (fun _ q => some (errs q)) init = some (errs (l.getLast hne)) := by
  intro l
  induction l with
  | nil => intro hne; exact absurd rfl hne
  | cons q qs ih =>
      intro hne init
      cases qs with
      | nil => simp [List.foldl_cons, List.foldl_nil, List.getLast_singleton]
      | cons q2 t =>
          rw [List.foldl_cons, ih (List.cons_ne_nil q2 t) (some (errs q))]
          exact congrArg (fun x => some (errs x))
            (List.getLast_cons (List.cons_ne_nil q2 t)).symm

/-- Claim C5, amended: without a caller-specified provider and with no live cache
entry, `generateText` tries the fallback providers strictly in order; the first
success is stored in the cache and returned, later providers untried (the
attempted list records the failed prefix then the succeeding provider).  When
every candidate fails, it fails with the `AIServiceError` of code
`GENERATION_FAILED` carrying the last provider error as cause and the FIRST
attempted provider — the full attempted list is only logged, not carried by the
error. -/
theorem claim_c5_fallback_cascade :
    (∀ (avail : AIProvider → Bool) (call : CallOutcomes) (prompt : String)
       (opts : GenOptions) (cache : CacheManager) (pre post : List AIProvider)
       (p : AIProvider) (r : AIResponse),
       opts.provider = none →
       opts.useCache ≠ some false →
       cache.get (getCacheKey "text" prompt opts) = none →
       (∀ q ∈ pre, ∃ e, tryProvider avail call opts q = .error e) →
       tryProvider avail call opts p = .ok r →
       generateText avail call (pre ++ p :: post) prompt opts cache =
         (.ok r, pre ++ [p],
           cache.set (getCacheKey "text" prompt opts) r)) ∧
    (∀ (avail : AIProvider → Bool) (call : CallOutcomes) (prompt : String)
       (opts : GenOptions) (cache : CacheManager) (c0 : AIProvider)
       (cs : List AIProvider) (errs : AIProvider → ErrMsg),
       opts.provider = none →
       opts.useCache ≠ some false →
       cache.get (getCacheKey "text" prompt opts) = none →
       (∀ q ∈ c0 :: cs, tryProvider avail call opts q = .error (errs q)) →
       generateText avail call (c0 :: cs) prompt opts cache =
         (.error ⟨allFailMsg (some (errs ((c0 :: cs).getLast (List.cons_ne_nil c0 cs)))),
             some c0, some "GENERATION_FAILED",
             some (errs ((c0 :: cs).getLast (List.cons_ne_nil c0 cs)))⟩,
           c0 :: cs, cache)) := by
  constructor
  · intro avail call prompt opts cache pre post p r hprov hcache hmiss hpre hp
    simp only [generateText, hprov, if_neg hcache, hmiss]
    rw [generateTextLoop_success avail call opts _ _ p r hp pre post none [] cache hpre]
    simp [setIfKey]
  · intro avail call prompt opts cache c0 cs errs hprov hcache hmiss hall
    simp only [generateText, hprov, if_neg hcache, hmiss]
    rw [generateTextLoop_allfail avail call opts _ _ errs (c0 :: cs) none [] cache hall]
    rw [foldl_lastErr errs (c0 :: cs) (List.cons_ne_nil c0 cs) none]
    simp

/-- Default options: no caller overrides. -/
def defaultOpts : GenOptions := ⟨none, none, none, none, none⟩

/-- Witness for claim C5's amended theorem: provider A always errors, provider B
always succeeds — B's response is returned and cached, A is recorded as attempted
first, and google (after B) is never attempted. -/
theorem claim_c5_fallback_cascade_witness :
    generateText (fun _ => true)
        (fun p _ => match p with
          | .anthropic => .error "errA"
          | .openai => .ok "hello"
          | .google => .ok "unused")
        [.anthropic, .openai, .google] "hi" defaultOpts ⟨[]⟩ =
      (.ok ⟨"hello", .openai, "gpt-4-turbo"⟩, [.anthropic, .openai],
        CacheManager.set ⟨[]⟩ (getCacheKey "text" "hi" defaultOpts)
          ⟨"hello", .openai, "gpt-4-turbo"⟩) :=
  claim_c5_fallback_cascade.1 (fun _ => true)
    (fun p _ => match p with
      | .anthropic => .error "errA"
      | .openai => .ok "hello"
      | .google => .ok "unused")
    "hi" defaultOpts ⟨[]⟩ [.anthropic] [.google] .openai
    ⟨"hello", .openai, "gpt-4-turbo"⟩ rfl (by decide) (by decide)
    (by intro q hq
        refine ⟨"errA", ?_⟩
        simp only [List.mem_singleton] at hq
        subst hq
        decide)
    (by decide)

/-- Claim C5, counterexample: when all providers fail, the thrown error does not
carry the list of attempted providers — its only provider field holds the first
candidate (`anthropic`) even though `openai` was attempted too (the attempted
list reaches only the log); the carried code is `GENERATION_FAILED`. -/
theorem claim_c5_counterexample :
    generateText (fun _ => true)
        (fun p _ => match p with
          | .anthropic => .error "errA"
          | .openai => .error "errB"
          | .google => .error "errG")
        [.anthropic, .openai] "hi" defaultOpts ⟨[]⟩ =
      (.error ⟨"All providers failed. Last error: errB", some .anthropic,
          some "GENERATION_FAILED", some "errB"⟩,
        [.anthropic, .openai], ⟨[]⟩) ∧
      AIProvider.openai ≠ AIProvider.anthropic := by
  refine ⟨by decide, by decide⟩

end Llm
